import Mathlib

/-!
Verification of the windowed incremental indicator engine and its
checkpointed batch-processing driver (`src/services/indicators/calculator.rs`)
and the adaptive batched writer (`src/db/clickhouse/repository/indicator_repository.rs`).

Modelling conventions:
* `f64` values are modelled as `ℚ` (exact rational arithmetic); the float
  literal `0.2` is the rational `1/5`.
* `f64::sqrt`, the only inherently irrational operation (used solely inside
  `VolumeStatistics.stddev`), is threaded through as an explicit function
  parameter `f : ℚ → ℚ`; theorems that depend on its value take a local
  hypothesis that `f` is a genuine square root at the point of use, and all
  other theorems hold for every `f`.
* `i64` timestamps are `ℤ`, `u64` volumes are `ℕ`, `i8` flags are `ℤ`.
* The async I/O of the driver is modelled by passing the page source, the
  historical-window source and the insert operation as explicit functions;
  the unbounded `loop` is given a fuel parameter.
* Only the floating-point-converted candle projection (`DbCandleConverted`)
  is modelled; the fixed-point `units + nano` decoding of `DbCandleRaw` is
  not involved in any claim.
-/

/-- Converted candle row (`DbCandleConverted` in
`src/db/clickhouse/models/indicator.rs`): the floating-point projection the
engine consumes. -/
structure DbCandleConverted where
  instrument_uid : String
  time : ℤ
  open_price : ℚ
  high_price : ℚ
  low_price : ℚ
  close_price : ℚ
  volume : ℕ
deriving DecidableEq

/-- Indicator row (`DbIndicator`), 19 fields as written to the sink. -/
structure DbIndicator where
  instrument_uid : String
  time : ℤ
  open_price : ℚ
  high_price : ℚ
  low_price : ℚ
  close_price : ℚ
  volume : ℕ
  rsi_14 : ℚ
  ma_10 : ℚ
  ma_30 : ℚ
  volume_norm : ℚ
  ma_diff : ℚ
  ma_cross : ℤ
  rsi_zone : ℤ
  volume_anomaly : ℤ
  hour_of_day : ℤ
  day_of_week : ℤ
  price_change_15m : ℚ
  signal_15m : ℤ
deriving DecidableEq

deriving instance DecidableEq for Except

/-- Model of `calculate_sma` (calculator.rs:502-511): simple average of the last
`period` prices; `0.0` when the buffer is empty, the period is zero, or
fewer than `period` prices are buffered. -/
def calculate_sma (prices : List ℚ) (period : ℕ) : ℚ :=
  if prices = [] ∨ period = 0 ∨ prices.length < period then 0
  else ((prices.drop (prices.length - period)).sum) / period

/-- Model of `calculate_rsi` (calculator.rs:514-528): neutral `50.0` with fewer than
14 buffered deltas; `100.0` when the average loss is exactly zero; otherwise
`100 − 100/(1 + avgGain/avgLoss)`. -/
def calculate_rsi (gains losses : List ℚ) : ℚ :=
  if gains.length < 14 ∨ losses.length < 14 then 50
  else
    let avg_gain := gains.sum / 14
    let avg_loss := losses.sum / 14
    if avg_loss = 0 then 100
    else 100 - 100 / (1 + avg_gain / avg_loss)

/-- Model of `determine_ma_cross` (calculator.rs:531-549). `prev_ma_fast > prev_ma_slow`
etc. are written with `<`/`≤` flipped to the Lean convention. -/
def determine_ma_cross (prev_ma_fast prev_ma_slow curr_ma_fast curr_ma_slow : ℚ) : ℤ :=
  if prev_ma_fast ≤ prev_ma_slow ∧ curr_ma_slow < curr_ma_fast then 1
  else if prev_ma_slow ≤ prev_ma_fast ∧ curr_ma_fast < curr_ma_slow then -1
  else 0

/-- Model of `calculate_future_price_change` (calculator.rs:552-568). -/
def calculate_future_price_change (current_price future_price : ℚ) : ℚ × ℤ :=
  if current_price = 0 then (0, 0)
  else
    let price_change := (future_price / current_price - 1) * 100
    let signal : ℤ :=
      if (0.2 : ℚ) < price_change then 1
      else if price_change < -(0.2 : ℚ) then -1
      else 0
    (price_change, signal)

/-- Model of `VolumeStatistics` (calculator.rs:436-441): bounded volume window with
incrementally maintained sum and sum of squares. -/
structure VolumeStatistics where
  volumes : List ℚ
  window_size : ℕ
  sum : ℚ
  sum_sq : ℚ
deriving DecidableEq

/-- Model of `VolumeStatistics::new` (calculator.rs:444-451). -/
def VolumeStatistics.new (window_size : ℕ) : VolumeStatistics :=
  { volumes := [], window_size := window_size, sum := 0, sum_sq := 0 }

/-- Model of `VolumeStatistics::add` (calculator.rs:453-465): push the new value,
update the running sums, and evict the oldest value once past capacity
(`pop_front().unwrap_or(0.0)` is `headD 0`). -/
def VolumeStatistics.add (s : VolumeStatistics) (volume : ℚ) : VolumeStatistics :=
  let volumes := s.volumes ++ [volume]
  let sum := s.sum + volume
  let sum_sq := s.sum_sq + volume * volume
  if s.window_size < volumes.length then
    let old_value := volumes.headD 0
    { volumes := volumes.tail, window_size := s.window_size,
      sum := sum - old_value, sum_sq := sum_sq - old_value * old_value }
  else
    { volumes := volumes, window_size := s.window_size, sum := sum, sum_sq := sum_sq }

/-- Model of `VolumeStatistics::mean` (calculator.rs:467-472). -/
def VolumeStatistics.mean (s : VolumeStatistics) : ℚ :=
  if s.volumes = [] then 0 else s.sum / s.volumes.length

/-- Model of `VolumeStatistics::stddev` (calculator.rs:474-487); `f` stands for
`f64::sqrt`. -/
def VolumeStatistics.stddev (f : ℚ → ℚ) (s : VolumeStatistics) : ℚ :=
  if s.volumes.length ≤ 1 then 0
  else
    let n : ℚ := s.volumes.length
    let variance := (s.sum_sq - s.sum * s.sum / n) / (n - 1)
    if variance ≤ 0 then 0 else f variance

/-- Model of `VolumeStatistics::normalize` (calculator.rs:489-498). -/
def VolumeStatistics.normalize (f : ℚ → ℚ) (s : VolumeStatistics) (value : ℚ) : ℚ :=
  let mean := s.mean
  let stddev := s.stddev f
  if stddev = 0 then 0 else (value - mean) / stddev

/-- Rolling buffers shared by the seeding loop (calculator.rs:289-322) and
the main loop (calculator.rs:325-352): price window, RSI gain/loss windows,
volume statistics, and the close of the previously seen candle (standing for
the `i > 0` indexed access to `candles[i-1]`). -/
structure BufState where
  prices : List ℚ
  gains : List ℚ
  losses : List ℚ
  vs : VolumeStatistics
  prevClose : Option ℚ
deriving DecidableEq

/-- The per-candle buffer update common to both loops of
`calculate_indicators`: push the RSI delta (gain when `price_change >= 0.0`)
and trim to 14, push the close price and trim to `window_size`, feed the
volume into `VolumeStatistics`. -/
def updateBuffers (window_size : ℕ) (s : BufState) (c : DbCandleConverted) : BufState :=
  let gl : List ℚ × List ℚ :=
    match s.prevClose with
    | none => (s.gains, s.losses)
    | some pc =>
      let price_change := c.close_price - pc
      let gl0 : List ℚ × List ℚ :=
        if 0 ≤ price_change then (s.gains ++ [price_change], s.losses ++ [0])
        else (s.gains ++ [0], s.losses ++ [-price_change])
      if 14 < gl0.1.length then (gl0.1.tail, gl0.2.tail) else gl0
  let prices0 := s.prices ++ [c.close_price]
  let prices := if window_size < prices0.length then prices0.tail else prices0
  { prices := prices, gains := gl.1, losses := gl.2,
    vs := s.vs.add (c.volume : ℚ), prevClose := some c.close_price }

/-- Full loop state of `calculate_indicators`: the rolling buffers plus the
carried `prev_ma_10`/`prev_ma_30` (calculator.rs:315-316, 369-370). -/
structure LoopState where
  buf : BufState
  prevMa10 : ℚ
  prevMa30 : ℚ
deriving DecidableEq

/-- Hour-of-day of an epoch-second timestamp in UTC
(`chrono::DateTime::hour`, calculator.rs:393-394). -/
def hourOfDay (t : ℤ) : ℤ := (t.ediv 3600).emod 24

/-- ISO day-of-week (1 = Monday .. 7 = Sunday) of an epoch-second timestamp
in UTC (calculator.rs:395-403); the epoch (day 0) was a Thursday. -/
def dayOfWeek (t : ℤ) : ℤ := ((t.ediv 86400) + 3).emod 7 + 1

/-- The main emission loop of `calculate_indicators`
(calculator.rs:325-429), recursing over remaining candles. The 15-candle
lookahead `candles[i + 15]` is `rest[14]?` relative to the current head. -/
def mainLoop (f : ℚ → ℚ) (window_size : ℕ) :
    LoopState → List DbCandleConverted → List DbIndicator
  | _, [] => []
  | s, c :: rest =>
    let b := updateBuffers window_size s.buf c
    let ma_10 := calculate_sma b.prices 10
    let ma_30 := calculate_sma b.prices 30
    let rsi_14 := calculate_rsi b.gains b.losses
    let ma_diff := ma_10 - ma_30
    let ma_cross := determine_ma_cross s.prevMa10 s.prevMa30 ma_10 ma_30
    let rsi_zone : ℤ := if rsi_14 < 30 then 1 else if 70 < rsi_14 then -1 else 0
    let volume_norm := b.vs.normalize f (c.volume : ℚ)
    let volume_anomaly : ℤ := if 2 < volume_norm then 1 else 0
    let fut := rest[14]?
    let pcs : ℚ × ℤ :=
      match fut with
      | some future => calculate_future_price_change c.close_price future.close_price
      | none => (0, 0)
    { instrument_uid := c.instrument_uid
      time := c.time
      open_price := c.open_price
      high_price := c.high_price
      low_price := c.low_price
      close_price := c.close_price
      volume := c.volume
      rsi_14 := rsi_14
      ma_10 := ma_10
      ma_30 := ma_30
      volume_norm := volume_norm
      ma_diff := ma_diff
      ma_cross := ma_cross
      rsi_zone := rsi_zone
      volume_anomaly := volume_anomaly
      hour_of_day := hourOfDay c.time
      day_of_week := dayOfWeek c.time
      price_change_15m := pcs.1
      signal_15m := pcs.2 } :: mainLoop f window_size ⟨b, ma_10, ma_30⟩ rest

/-- Empty rolling buffers; the volume window is fixed at 50
(`VolumeStatistics::new(50)`, calculator.rs:319). -/
def initBuf : BufState :=
  { prices := [], gains := [], losses := [], vs := VolumeStatistics.new 50, prevClose := none }

/-- Model of `IndicatorCalculator::calculate_indicators` (calculator.rs:273-432).
`f` stands for `f64::sqrt`, `window_size` for `self.window_size` (50 in
`IndicatorCalculator::new`). Seeds the buffers over
`candles[0..window_end_idx]`, initialises `prev_ma_10`/`prev_ma_30` from the
seeded price window, then emits one record per remaining candle. -/
def calculate_indicators (f : ℚ → ℚ) (window_size : ℕ)
    (candles : List DbCandleConverted) (window_end_idx : ℕ) : List DbIndicator :=
  if candles.length ≤ window_size then []
  else
    let seeded := (candles.take window_end_idx).foldl (updateBuffers window_size) initBuf
    mainLoop f window_size
      ⟨seeded, calculate_sma seeded.prices 10, calculate_sma seeded.prices 30⟩
      (candles.drop window_end_idx)

/-- Result of one iteration of the per-instrument loop of
`process_all_instruments`: new checkpoint, new inserted-row count, and
whether the loop breaks (`batch_count < self.batch_size`). -/
structure PageStep where
  lpt : ℤ
  processed : ℕ
  done : Bool
deriving DecidableEq

/-- The warm-up window the driver prepends on the first page of a resumed
run (calculator.rs:130-140): fetched only when nothing has been processed in
this cycle yet and the checkpoint is non-zero. -/
def driverWindowData (hist : ℤ → List DbCandleConverted) (lpt : ℤ) (processed : ℕ) :
    List DbCandleConverted :=
  if processed = 0 ∧ 0 < lpt then hist lpt else []

/-- The indicator records the driver computes for one fetched page
(calculator.rs:128-159): the engine is fed warm-up prefix plus page, with
`window_end_idx` equal to the warm-up prefix length. -/
def driverIndicators (f : ℚ → ℚ) (window_size : ℕ)
    (hist : ℤ → List DbCandleConverted)
    (lpt : ℤ) (processed : ℕ) (page : List DbCandleConverted) : List DbIndicator :=
  let window_data := driverWindowData hist lpt processed
  calculate_indicators f window_size (window_data ++ page) window_data.length

/-- One iteration of the per-instrument loop of `process_all_instruments`
(calculator.rs:99-190), for an already-fetched non-empty page. `hist` models
`fetch_historical_window`, `insertFn` models
`IndicatorRepository::insert_indicators`. The checkpoint is set to the last
candle's time unconditionally (calculator.rs:176-181); an insert error is
logged and otherwise ignored (calculator.rs:168-172). -/
def driverStep (f : ℚ → ℚ) (batch_size window_size : ℕ)
    (hist : ℤ → List DbCandleConverted)
    (insertFn : List DbIndicator → Except String ℕ)
    (lpt : ℤ) (processed : ℕ) (page : List DbCandleConverted) : PageStep :=
  let latest_time : ℤ :=
    match page.getLast? with
    | some last_candle => last_candle.time
    | none => lpt
  let indicators := driverIndicators f window_size hist lpt processed page
  let processed' :=
    if indicators = [] then processed
    else
      match insertFn indicators with
      | .ok inserted => processed + inserted
      | .error _ => processed
  { lpt := latest_time, processed := processed', done := page.length < batch_size }

/-- The per-instrument `loop` of `process_all_instruments`
(calculator.rs:99-190), with explicit fuel for the unbounded loop: fetch the
page after the checkpoint, stop on an empty page, otherwise run one
`driverStep` and continue unless the page was short. Returns the final
checkpoint and inserted-row count. -/
def processLoop (f : ℚ → ℚ) (batch_size window_size : ℕ)
    (fetch : ℤ → List DbCandleConverted)
    (hist : ℤ → List DbCandleConverted)
    (insertFn : List DbIndicator → Except String ℕ) :
    ℕ → ℤ → ℕ → ℤ × ℕ
  | 0, lpt, processed => (lpt, processed)
  | fuel + 1, lpt, processed =>
    let page := fetch lpt
    if page.isEmpty then (lpt, processed)
    else
      let r := driverStep f batch_size window_size hist insertFn lpt processed page
      if r.done then (r.lpt, r.processed)
      else processLoop f batch_size window_size fetch hist insertFn fuel r.lpt r.processed

/-- Whether the pattern occurs at the head of the haystack (over `Char`
lists). -/
def charsHavePre (hay pat : List Char) : Bool :=
  match hay, pat with
  | _, [] => true
  | [], _ :: _ => false
  | a :: hs, b :: ps => a == b && charsHavePre hs ps

/-- Whether the pattern occurs anywhere in the haystack; models Rust's
`str::contains`. -/
def charsContain (hay pat : List Char) : Bool :=
  match hay with
  | [] => charsHavePre [] pat
  | _ :: t => charsHavePre hay pat || charsContain t pat

/-- String wrapper for `charsContain`; models Rust `str::contains` on `String`. -/
def strContains (hay pat : String) : Bool := charsContain hay.data pat.data

/-- The recognized capacity-exhaustion class of ClickHouse errors
(indicator_repository.rs:157): the message contains `TOO_MANY_PARTS` or
`MEMORY_LIMIT_EXCEEDED`. -/
def isCapacityError (e : String) : Bool :=
  strContains e "TOO_MANY_PARTS" || strContains e "MEMORY_LIMIT_EXCEEDED"

/-- Split a list into consecutive chunks of `k` (the last may be shorter);
models the `step_by(BATCH_SIZE)` slicing of indicator_repository.rs:86-88.
Written with an accumulator so it is structurally recursive. -/
def chunkAux (k : ℕ) : List α → List α → List (List α)
  | acc, [] => if acc.isEmpty then [] else [acc.reverse]
  | acc, x :: xs =>
    if acc.length + 1 = k then (x :: acc).reverse :: chunkAux k [] xs
    else chunkAux k (x :: acc) xs

/-- Chunks of size `k`. -/
def chunksOf (k : ℕ) (l : List α) : List (List α) := chunkAux k [] l

/-- Whether a single-row insert attempt succeeded. -/
def rowOk (rowExec : DbIndicator → Except String Unit) (r : DbIndicator) : Bool :=
  match rowExec r with
  | .ok _ => true
  | .error _ => false

/-- The sub-batch loop of `insert_indicators`
(indicator_repository.rs:86-215): multi-row insert per chunk; on a
capacity-exhaustion error fall back to row-by-row insertion counting the
rows that succeed (failed rows are dropped); on any other error return it
immediately. `acc` is `successful_inserts`. -/
def insertGo (batchExec : List DbIndicator → Except String Unit)
    (rowExec : DbIndicator → Except String Unit) :
    List (List DbIndicator) → ℕ → Except String ℕ
  | [], acc => .ok acc
  | batch :: rest, acc =>
    match batchExec batch with
    | .ok _ => insertGo batchExec rowExec rest (acc + batch.length)
    | .error e =>
      if isCapacityError e then
        insertGo batchExec rowExec rest (acc + (batch.countP (rowOk rowExec)))
      else .error e

/-- Model of `IndicatorRepository::insert_indicators` (indicator_repository.rs:67-223)
with the two ClickHouse round trips abstracted: `batchExec` executes one
multi-row `INSERT`, `rowExec` one single-row `INSERT`. Returns the number of
rows durably written, or the first error outside the capacity-exhaustion
class. -/
def insert_indicators (batchExec : List DbIndicator → Except String Unit)
    (rowExec : DbIndicator → Except String Unit)
    (indicators : List DbIndicator) : Except String ℕ :=
  if indicators = [] then .ok 0
  else insertGo batchExec rowExec (chunksOf 50 indicators) 0

/-- Whether a chunk's multi-row insert either succeeds or fails inside the
recognized capacity-exhaustion class. -/
def okOrCapB (batchExec : List DbIndicator → Except String Unit)
    (batch : List DbIndicator) : Bool :=
  match batchExec batch with
  | .ok _ => true
  | .error e => isCapacityError e

/-- Rows a chunk contributes to the returned count: the whole chunk when the
multi-row insert succeeds, else the rows whose single-row retry succeeds. -/
def chunkContribution (batchExec : List DbIndicator → Except String Unit)
    (rowExec : DbIndicator → Except String Unit)
    (batch : List DbIndicator) : ℕ :=
  match batchExec batch with
  | .ok _ => batch.length
  | .error _ => batch.countP (rowOk rowExec)

/-- The last `k` elements of a list. -/
def lastN (k : ℕ) (l : List α) : List α := l.drop (l.length - k)

/-- Successive differences of a price list (the RSI `price_change` stream). -/
def deltasOf : List ℚ → List ℚ
  | a :: b :: rest => (b - a) :: deltasOf (b :: rest)
  | _ => []

/-- Gain component of one price delta. -/
def gainOf (d : ℚ) : ℚ := if 0 ≤ d then d else 0

/-- Loss component of one price delta. -/
def lossOf (d : ℚ) : ℚ := if 0 ≤ d then 0 else -d

/-- Close prices of a candle list. -/
def closesOf (candles : List DbCandleConverted) : List ℚ :=
  candles.map (fun c => c.close_price)

/-- Volumes of a candle list, as rationals. -/
def volsOf (candles : List DbCandleConverted) : List ℚ :=
  candles.map (fun c => (c.volume : ℚ))

/-- Closed form of the volume statistics after feeding a volume list: the
window is the last 50 volumes and the running sums are the exact window
sums (exact in `ℚ`; the incremental updates introduce no drift). -/
def canonVS (vols : List ℚ) : VolumeStatistics :=
  { volumes := lastN 50 vols
  , window_size := 50
  , sum := (lastN 50 vols).sum
  , sum_sq := ((lastN 50 vols).map (fun v => v * v)).sum }

/-- Closed form of the rolling buffers after feeding a candle list: last 50
closes, gain/loss components of the last 14 deltas, canonical volume
statistics, and the last close. -/
def canonBuf (candles : List DbCandleConverted) : BufState :=
  { prices := lastN 50 (closesOf candles)
  , gains := lastN 14 ((deltasOf (closesOf candles)).map gainOf)
  , losses := lastN 14 ((deltasOf (closesOf candles)).map lossOf)
  , vs := canonVS (volsOf candles)
  , prevClose := (closesOf candles).getLast? }

/-- One full-state step of the main emission loop: update the buffers and
remember the just-computed moving averages as the previous pair. -/
def mainStep (window_size : ℕ) (s : LoopState) (c : DbCandleConverted) : LoopState :=
  let b := updateBuffers window_size s.buf c
  ⟨b, calculate_sma b.prices 10, calculate_sma b.prices 30⟩

/-- Mean of a volume window, as the spec words it. -/
def specWindowMean (w : List ℚ) : ℚ := w.sum / w.length

/-- Bessel-corrected sample variance of a volume window, as the spec words
it: squared deviations from the mean divided by `n − 1`. -/
def specSampleVariance (w : List ℚ) : ℚ :=
  ((w.map (fun x => (x - specWindowMean w) * (x - specWindowMean w))).sum) / (w.length - 1)

/-- Whether every element of the list is strictly above `p` and the list is
strictly increasing. -/
def ascFrom (p : ℚ) : List ℚ → Bool
  | [] => true
  | x :: xs => decide (p < x) && ascFrom x xs

/-- Whether a price list is strictly increasing. -/
def ascB : List ℚ → Bool
  | [] => true
  | x :: xs => ascFrom x xs

/-- Whether every candle time in the list is at least `t` and the times are
non-decreasing. -/
def nondecFrom (t : ℤ) : List DbCandleConverted → Bool
  | [] => true
  | c :: rest => decide (t ≤ c.time) && nondecFrom c.time rest

/-- Whether the candle times are non-decreasing (the fetched page order,
`ORDER BY time ASC`). -/
def nondecTimes : List DbCandleConverted → Bool
  | [] => true
  | c :: rest => nondecFrom c.time rest

/-- The end-to-end input of spec §8: instrument `"ABC"`, 51 one-minute
candles, strictly increasing closes `1..51`, constant volume `100`. -/
def c2Candles : List DbCandleConverted :=
  (List.range 51).map (fun (k : ℕ) =>
    { instrument_uid := "ABC", time := 60 * ((k : ℤ) + 1),
      open_price := (k + 1 : ℚ), high_price := (k + 1 : ℚ),
      low_price := (k + 1 : ℚ), close_price := (k + 1 : ℚ), volume := 100 })

/-- A 55-candle history with non-monotone closes and varying volumes, used
to instantiate the resume-consistency theorem. -/
def rcCandles : List DbCandleConverted :=
  (List.range 55).map (fun (k : ℕ) =>
    { instrument_uid := "A", time := 60 * ((k : ℤ) + 1),
      open_price := (k : ℚ), high_price := (k : ℚ),
      low_price := (k : ℚ),
      close_price := (((k * k) % 17 : ℕ) : ℚ), volume := 100 + ((k * 7) % 13) })

/-- 60 indicator rows (distinct times, even/odd split), used to instantiate
the sink theorems. -/
def c9Rows : List DbIndicator :=
  (List.range 60).map (fun (k : ℕ) =>
    { instrument_uid := "X", time := (k : ℤ), open_price := 0, high_price := 0,
      low_price := 0, close_price := 0, volume := 0, rsi_14 := 50, ma_10 := 0,
      ma_30 := 0, volume_norm := 0, ma_diff := 0, ma_cross := 0, rsi_zone := 0,
      volume_anomaly := 0, hour_of_day := 0, day_of_week := 4,
      price_change_15m := 0, signal_15m := 0 })

/-- A capacity-class batch failure: every multi-row insert reports
`TOO_MANY_PARTS`. -/
def capFailBatch : List DbIndicator → Except String Unit :=
  fun _ => .error "DB::Exception: TOO_MANY_PARTS (error 252)"

/-- A row oracle that succeeds exactly on rows with even time. -/
def evenRowExec : DbIndicator → Except String Unit :=
  fun r => if r.time % 2 = 0 then .ok () else .error "DB::Exception: TOO_MANY_PARTS (error 252)"

/-- A non-capacity store error: a closed connection. -/
def otherErrBatch : List DbIndicator → Except String Unit :=
  fun _ => .error "Network error: CONNECTION_RESET"

/-- The insert function of the C3 scenario: `insert_indicators` over a store
whose every write fails with a non-capacity error. -/
def c3Insert : List DbIndicator → Except String ℕ :=
  insert_indicators otherErrBatch (fun _ => .error "Network error: CONNECTION_RESET")

/-- The candle source of the C3 scenario: one 51-candle page at checkpoint
0, nothing afterwards. -/
def c3Fetch : ℤ → List DbCandleConverted :=
  fun t => if t = 0 then c2Candles else []

/-- The volume statistics accumulated by feeding a volume list value by
value into `VolumeStatistics::add`, exactly as the engine does. -/
def vsOf (vols : List ℚ) : VolumeStatistics :=
  vols.foldl VolumeStatistics.add (VolumeStatistics.new 50)

/-! ### List helper lemmas for the rolling-window canonicalization -/

lemma tail_append_of_ne_nil (l l2 : List α) (h : l ≠ []) : (l ++ l2).tail = l.tail ++ l2 := by
  cases l with
  | nil => exact absurd rfl h
  | cons a t => simp

lemma lastN_of_le {k : ℕ} {l : List α} (h : l.length ≤ k) : lastN k l = l := by
  simp [lastN, Nat.sub_eq_zero_of_le h]

lemma lastN_length_le (k : ℕ) (l : List α) : (lastN k l).length ≤ k := by
  simp [lastN]; omega

lemma lastN_lastN (k : ℕ) (l : List α) : lastN k (lastN k l) = lastN k l :=
  lastN_of_le (lastN_length_le k l)

lemma lastN_map (f : α → β) (k : ℕ) (l : List α) : lastN k (l.map f) = (lastN k l).map f := by
  simp [lastN, List.map_drop]

lemma lastN_drop {j n : ℕ} {l : List α} (h : n + j ≤ l.length) :
    lastN j (l.drop n) = lastN j l := by
  show (l.drop n).drop ((l.drop n).length - j) = l.drop (l.length - j)
  rw [List.length_drop, List.drop_drop]
  congr 1
  omega

lemma snoc_trim (k : ℕ) (l : List α) (x : α) :
    (if k < (lastN k l ++ [x]).length then (lastN k l ++ [x]).tail else lastN k l ++ [x])
      = lastN k (l ++ [x]) := by
  rcases Nat.lt_or_ge l.length k with h | h
  · rw [lastN_of_le (Nat.le_of_lt h), lastN_of_le (k := k) (by simp; omega), if_neg (by simp; omega)]
  · have hlen : (lastN k l).length = k := by simp [lastN]; omega
    rw [if_pos (by simp [hlen])]
    rcases Nat.eq_zero_or_pos k with hk0 | hk0
    · subst hk0
      have h0 : lastN 0 l = [] := List.length_eq_zero.mp hlen
      have h1 : lastN 0 (l ++ [x]) = [] := List.length_eq_zero.mp (by simp [lastN])
      simp [h0, h1]
    · have hne : lastN k l ≠ [] := by
        intro hnil
        rw [hnil] at hlen
        simp at hlen
        omega
      rw [tail_append_of_ne_nil _ _ hne]
      show (l.drop (l.length - k)).tail ++ [x] = (l ++ [x]).drop ((l ++ [x]).length - k)
      rw [List.tail_drop, List.length_append,
        List.drop_append_of_le_length (by simp; omega)]
      congr 2
      simp
      omega

lemma deltasOf_drop (n : ℕ) : ∀ (l : List ℚ), deltasOf (l.drop n) = (deltasOf l).drop n := by
  induction n with
  | zero => intro l; simp
  | succ m ih =>
    intro l
    cases l with
    | nil => simp [deltasOf]
    | cons a t =>
      cases t with
      | nil => simp [deltasOf]
      | cons b r =>
        rw [List.drop_succ_cons, ih (b :: r)]
        rfl

lemma getLast?_drop : ∀ (n : ℕ) (l : List α), n < l.length → (l.drop n).getLast? = l.getLast? := by
  intro n
  induction n with
  | zero => intro l _; rfl
  | succ m ih =>
    intro l h
    cases l with
    | nil => simp at h
    | cons a t =>
      have ht : m < t.length := by simpa using h
      rw [List.drop_succ_cons, ih t ht]
      cases t with
      | nil => simp at ht
      | cons b r => simp

lemma deltasOf_snoc : ∀ (l : List ℚ) (p x : ℚ), l.getLast? = some p →
    deltasOf (l ++ [x]) = deltasOf l ++ [x - p] := by
  intro l
  induction l with
  | nil => intro p x h; simp at h
  | cons a t ih =>
    intro p x h
    cases t with
    | nil =>
      simp only [List.getLast?_singleton, Option.some.injEq] at h
      subst h
      simp [deltasOf]
    | cons b r =>
      have h' : (b :: r).getLast? = some p := by rwa [List.getLast?_cons_cons] at h
      simp only [List.cons_append, deltasOf, List.append_eq]
      rw [← List.cons_append, ih p x h']

/-! ### Canonical form of the rolling state -/

lemma canonVS_add (vols : List ℚ) (v : ℚ) :
    (canonVS vols).add v = canonVS (vols ++ [v]) := by
  rcases Nat.lt_or_ge vols.length 50 with h | h
  · have h1 : lastN 50 vols = vols := lastN_of_le (Nat.le_of_lt h)
    have h2 : lastN 50 (vols ++ [v]) = vols ++ [v] := lastN_of_le (by simp; omega)
    simp only [VolumeStatistics.add, canonVS, h1, h2]
    rw [if_neg (by simp; omega)]
    simp [List.sum_append]
  · have hw : (lastN 50 vols).length = 50 := by simp [lastN]; omega
    obtain ⟨a, t, ht⟩ : ∃ a t, lastN 50 vols = a :: t := by
      cases hh : lastN 50 vols with
      | nil => rw [hh] at hw; simp at hw
      | cons a t => exact ⟨a, t, rfl⟩
    have hlt : t.length = 49 := by
      rw [ht] at hw
      simpa using hw
    have htail : lastN 50 (vols ++ [v]) = t ++ [v] := by
      have hst := snoc_trim 50 vols v
      rw [if_pos (by simp [hw]), ht] at hst
      simpa using hst.symm
    simp only [VolumeStatistics.add, canonVS, ht, htail]
    rw [if_pos (by simp [hlt])]
    simp [List.sum_append]
    constructor
    · ring
    · ring

lemma updateBuffers_canon (pre : List DbCandleConverted) (c : DbCandleConverted) :
    updateBuffers 50 (canonBuf pre) c = canonBuf (pre ++ [c]) := by
  have hcl : closesOf (pre ++ [c]) = closesOf pre ++ [c.close_price] := by
    simp [closesOf]
  have hvl : volsOf (pre ++ [c]) = volsOf pre ++ [(c.volume : ℚ)] := by
    simp [volsOf]
  have hprices :
      (if 50 < (lastN 50 (closesOf pre) ++ [c.close_price]).length
        then (lastN 50 (closesOf pre) ++ [c.close_price]).tail
        else lastN 50 (closesOf pre) ++ [c.close_price])
      = lastN 50 (closesOf (pre ++ [c])) := by
    rw [hcl]
    exact snoc_trim 50 (closesOf pre) c.close_price
  cases hpc : (closesOf pre).getLast? with
  | none =>
    have hpre : closesOf pre = [] := by
      cases hcp : closesOf pre with
      | nil => rfl
      | cons a t => rw [hcp, List.getLast?_eq_getLast _ (by simp)] at hpc; simp at hpc
    have hpre' : pre = [] := by
      cases pre with
      | nil => rfl
      | cons p q => simp [closesOf] at hpre
    subst hpre'
    simp only [updateBuffers, canonBuf, hpc]
    simp only [closesOf, volsOf, List.nil_append, List.map_cons, List.map_nil]
    simp [canonVS_add, deltasOf, lastN, canonVS, VolumeStatistics.add, VolumeStatistics.new]
  | some p =>
    have hdel : deltasOf (closesOf (pre ++ [c]))
        = deltasOf (closesOf pre) ++ [c.close_price - p] := by
      rw [hcl]
      exact deltasOf_snoc (closesOf pre) p c.close_price hpc
    have hglen : ((deltasOf (closesOf pre)).map gainOf).length
        = ((deltasOf (closesOf pre)).map lossOf).length := by simp
    have hgains :
        (if 0 ≤ c.close_price - p
          then (lastN 14 ((deltasOf (closesOf pre)).map gainOf) ++ [c.close_price - p],
                lastN 14 ((deltasOf (closesOf pre)).map lossOf) ++ [0])
          else (lastN 14 ((deltasOf (closesOf pre)).map gainOf) ++ [0],
                lastN 14 ((deltasOf (closesOf pre)).map lossOf) ++ [-(c.close_price - p)]))
        = (lastN 14 ((deltasOf (closesOf pre)).map gainOf) ++ [gainOf (c.close_price - p)],
           lastN 14 ((deltasOf (closesOf pre)).map lossOf) ++ [lossOf (c.close_price - p)]) := by
      by_cases hd : 0 ≤ c.close_price - p
      · rw [if_pos hd]
        simp [gainOf, lossOf, hd]
      · rw [if_neg hd]
        simp [gainOf, lossOf, hd]
    simp only [updateBuffers, canonBuf, hpc, hgains]
    rw [BufState.mk.injEq]
    have hll : (lastN 14 ((deltasOf (closesOf pre)).map gainOf) ++ [gainOf (c.close_price - p)]).length
        = (lastN 14 ((deltasOf (closesOf pre)).map lossOf) ++ [lossOf (c.close_price - p)]).length := by
      simp [lastN]
    refine ⟨hprices, ?_, ?_, ?_, ?_⟩
    · rw [apply_ite Prod.fst, snoc_trim, hdel, List.map_append]
      simp
    · rw [hll, apply_ite Prod.snd, snoc_trim, hdel, List.map_append]
      simp
    · rw [hvl]
      exact canonVS_add _ _
    · rw [hcl]
      exact (List.getLast?_concat _).symm

lemma foldl_updateBuffers_canon (pre : List DbCandleConverted) :
    pre.foldl (updateBuffers 50) initBuf = canonBuf pre := by
  induction pre using List.reverseRecOn with
  | nil => rfl
  | append_singleton l a ih => rw [List.foldl_concat, ih, updateBuffers_canon]

lemma deltasOf_length : ∀ (l : List ℚ), (deltasOf l).length = l.length - 1 := by
  intro l
  induction l with
  | nil => rfl
  | cons a t ih =>
    cases t with
    | nil => rfl
    | cons b r =>
      show (deltasOf (a :: b :: r)).length = (b :: r).length
      simp only [deltasOf, List.length_cons]
      rw [ih]
      simp

lemma canonVS_lastN (vols : List ℚ) : canonVS (lastN 50 vols) = canonVS vols := by
  unfold canonVS
  rw [lastN_lastN]

lemma canonBuf_lastN (pre : List DbCandleConverted) :
    canonBuf (lastN 50 pre) = canonBuf pre := by
  rcases le_or_lt pre.length 50 with h | h
  · rw [lastN_of_le h]
  · have hcl : closesOf (lastN 50 pre) = lastN 50 (closesOf pre) := by
      show (pre.drop (pre.length - 50)).map _ = (closesOf pre).drop ((closesOf pre).length - 50)
      rw [List.map_drop]
      simp [closesOf]
    have hvl : volsOf (lastN 50 pre) = lastN 50 (volsOf pre) := by
      show (pre.drop (pre.length - 50)).map _ = (volsOf pre).drop ((volsOf pre).length - 50)
      rw [List.map_drop]
      simp [volsOf]
    have hn : (closesOf pre).length = pre.length := by simp [closesOf]
    have hdl : (deltasOf (closesOf pre)).length = pre.length - 1 := by
      rw [deltasOf_length, hn]
    have hdrop : lastN 50 (closesOf pre) = (closesOf pre).drop (pre.length - 50) := by
      simp [lastN, hn]
    unfold canonBuf
    rw [hcl, hvl, canonVS_lastN, hdrop]
    rw [deltasOf_drop]
    refine BufState.mk.injEq _ _ _ _ _ _ _ _ _ _ |>.mpr ⟨?_, ?_, ?_, rfl, ?_⟩
    · rw [← hdrop, lastN_lastN]
    · rw [List.map_drop]
      exact lastN_drop (by simp [hdl]; omega)
    · rw [List.map_drop]
      exact lastN_drop (by simp [hdl]; omega)
    · exact getLast?_drop _ _ (by omega)

lemma mainLoop_drop (f : ℚ → ℚ) (ws : ℕ) :
    ∀ (a b : List DbCandleConverted) (s : LoopState),
    (mainLoop f ws s (a ++ b)).drop a.length = mainLoop f ws (a.foldl (mainStep ws) s) b := by
  intro a
  induction a with
  | nil => intro b s; simp
  | cons c a' ih =>
    intro b s
    rw [List.cons_append, List.length_cons]
    show (mainLoop f ws s (c :: (a' ++ b))).drop (a'.length + 1) = _
    rw [mainLoop, List.drop_succ_cons, List.foldl_cons]
    exact ih b (mainStep ws s c)

lemma foldl_mainStep_buf (ws : ℕ) :
    ∀ (a : List DbCandleConverted) (s : LoopState),
    (a.foldl (mainStep ws) s).buf = a.foldl (updateBuffers ws) s.buf := by
  intro a
  induction a with
  | nil => intro s; rfl
  | cons c a' ih =>
    intro s
    rw [List.foldl_cons, List.foldl_cons, ih]
    rfl

lemma foldl_mainStep_prevMa (ws : ℕ) :
    ∀ (a : List DbCandleConverted) (s : LoopState) (c : DbCandleConverted),
    ((c :: a).foldl (mainStep ws) s).prevMa10
        = calculate_sma ((c :: a).foldl (mainStep ws) s).buf.prices 10
    ∧ ((c :: a).foldl (mainStep ws) s).prevMa30
        = calculate_sma ((c :: a).foldl (mainStep ws) s).buf.prices 30 := by
  intro a
  induction a with
  | nil => intro s c; exact ⟨rfl, rfl⟩
  | cons d a' ih =>
    intro s c
    rw [List.foldl_cons]
    exact ih (mainStep ws s c) d

lemma calculate_indicators_of_le (f : ℚ → ℚ) (ws : ℕ) (candles : List DbCandleConverted)
    (wei : ℕ) (h : candles.length ≤ ws) : calculate_indicators f ws candles wei = [] := by
  simp only [calculate_indicators]
  rw [if_pos h]

lemma calculate_indicators_of_lt (f : ℚ → ℚ) (ws : ℕ) (candles : List DbCandleConverted)
    (wei : ℕ) (h : ¬ candles.length ≤ ws) :
    calculate_indicators f ws candles wei
      = mainLoop f ws
          ⟨(candles.take wei).foldl (updateBuffers ws) initBuf,
            calculate_sma ((candles.take wei).foldl (updateBuffers ws) initBuf).prices 10,
            calculate_sma ((candles.take wei).foldl (updateBuffers ws) initBuf).prices 30⟩
          (candles.drop wei) := by
  simp only [calculate_indicators]
  rw [if_neg h]

/-- Claim C1: computing indicators over the full history in one call
(`warmStartIndex 0`) yields, for the suffix from any split point, the same
records as seeding with the last 50 candles at or before the split and
resuming with `warmStartIndex` equal to the warm-up prefix length. -/
theorem resume_consistency (f : ℚ → ℚ) (candles : List DbCandleConverted) (split : ℕ)
    (hsplit : split ≤ candles.length) :
    calculate_indicators f 50
      (((candles.take split).drop (split - 50)) ++ candles.drop split)
      (((candles.take split).drop (split - 50)).length)
    = (calculate_indicators f 50 candles 0).drop split := by
  rcases Nat.eq_zero_or_pos split with h0 | hpos
  · subst h0
    simp
  · have hprelen : (candles.take split).length = split := by
      rw [List.length_take]
      omega
    have hwlen : ((candles.take split).drop (split - 50)).length = split - (split - 50) := by
      rw [List.length_drop, hprelen]
    have hsuflen : (candles.drop split).length = candles.length - split := by
      rw [List.length_drop]
    rcases le_or_lt candles.length 50 with hN | hN
    · rw [calculate_indicators_of_le f 50 _ _ (by simp [hwlen, hsuflen]; omega),
        calculate_indicators_of_le f 50 candles 0 hN]
      simp
    · rw [calculate_indicators_of_lt f 50 candles 0 (by omega)]
      simp only [List.take_zero, List.foldl_nil, List.drop_zero]
      by_cases hsufe : candles.drop split = []
      · have hse : split = candles.length := by
          rw [hsufe] at hsuflen
          simp at hsuflen
          omega
        rw [calculate_indicators_of_le f 50 _ _ (by rw [hsufe]; simp [hwlen]; omega)]
        have hd := mainLoop_drop f 50 candles []
          ⟨initBuf, calculate_sma initBuf.prices 10, calculate_sma initBuf.prices 30⟩
        rw [List.append_nil] at hd
        rw [hse, hd]
        rfl
      · have hsufpos : 0 < (candles.drop split).length := List.length_pos.mpr hsufe
        rw [calculate_indicators_of_lt f 50 _ _ (by simp [hwlen, hsuflen]; omega)]
        rw [List.take_left, List.drop_left]
        have hseed : ((candles.take split).drop (split - 50)).foldl (updateBuffers 50) initBuf
            = canonBuf (candles.take split) := by
          rw [foldl_updateBuffers_canon]
          have : (candles.take split).drop (split - 50) = lastN 50 (candles.take split) := by
            rw [lastN, hprelen]
          rw [this, canonBuf_lastN]
        rw [hseed]
        conv_rhs => rw [← List.take_append_drop split candles]
        have hd := mainLoop_drop f 50 (candles.take split) (candles.drop split)
          ⟨initBuf, calculate_sma initBuf.prices 10, calculate_sma initBuf.prices 30⟩
        rw [hprelen] at hd
        rw [hd]
        cases hpre0 : candles.take split with
        | nil =>
          rw [hpre0] at hprelen
          simp at hprelen
          omega
        | cons c pr =>
          obtain ⟨h10, h30⟩ := foldl_mainStep_prevMa 50 pr
            ⟨initBuf, calculate_sma initBuf.prices 10, calculate_sma initBuf.prices 30⟩ c
          have hbuf : ((c :: pr).foldl (mainStep 50)
              ⟨initBuf, calculate_sma initBuf.prices 10, calculate_sma initBuf.prices 30⟩).buf
              = canonBuf (candles.take split) := by
            rw [foldl_mainStep_buf]
            show (c :: pr).foldl (updateBuffers 50) initBuf = _
            rw [← hpre0, foldl_updateBuffers_canon]
          rcases hfs : (c :: pr).foldl (mainStep 50)
              ⟨initBuf, calculate_sma initBuf.prices 10, calculate_sma initBuf.prices 30⟩
            with ⟨b, m10, m30⟩
          rw [hfs] at hbuf h10 h30
          simp only at hbuf h10 h30
          rw [hbuf] at h10 h30
          rw [hbuf, h10, h30, ← hpre0]

/-- Witness for C1: the resume-consistency theorem instantiated at a
concrete 55-candle history with non-monotone closes and split point 52. -/
theorem resume_consistency_witness :
    52 ≤ rcCandles.length
    ∧ calculate_indicators (fun q => q) 50
        (((rcCandles.take 52).drop (52 - 50)) ++ rcCandles.drop 52)
        (((rcCandles.take 52).drop (52 - 50)).length)
      = (calculate_indicators (fun q => q) 50 rcCandles 0).drop 52 :=
  ⟨by with_unfolding_all decide,
   resume_consistency (fun q => q) rcCandles 52 (by with_unfolding_all decide)⟩

/-- Claim C5: the engine returns the empty record list whenever its full
input slice (warm-up prefix plus page) has at most 50 candles, for every
warm-start index. -/
theorem engine_empty_of_short (f : ℚ → ℚ) (candles : List DbCandleConverted) (wei : ℕ)
    (h : candles.length ≤ 50) :
    calculate_indicators f 50 candles wei = [] :=
  calculate_indicators_of_le f 50 candles wei h

/-- Witness for C5 at a concrete 3-candle slice. -/
theorem engine_empty_of_short_witness :
    (rcCandles.take 3).length ≤ 50
    ∧ calculate_indicators (fun q => q) 50 (rcCandles.take 3) 0 = [] :=
  ⟨by with_unfolding_all decide,
   engine_empty_of_short (fun q => q) (rcCandles.take 3) 0 (by with_unfolding_all decide)⟩

/-- Claim C10: `calculate_future_price_change` returns `(0.0, 0)` on a zero
current price (no division by zero); otherwise the percentage is
`(future/current − 1)·100` and the signal is `1` iff it exceeds `0.2`, `−1`
iff it is below `−0.2`, and `0` otherwise. -/
theorem future_price_change_spec (current_price future_price : ℚ) :
    (current_price = 0 → calculate_future_price_change current_price future_price = (0, 0))
    ∧ (current_price ≠ 0 →
        (calculate_future_price_change current_price future_price).1
            = (future_price / current_price - 1) * 100
        ∧ ((calculate_future_price_change current_price future_price).2 = 1
            ↔ (0.2 : ℚ) < (future_price / current_price - 1) * 100)
        ∧ ((calculate_future_price_change current_price future_price).2 = -1
            ↔ (future_price / current_price - 1) * 100 < -(0.2 : ℚ))
        ∧ ((calculate_future_price_change current_price future_price).2 = 0
            ↔ ¬ ((0.2 : ℚ) < (future_price / current_price - 1) * 100)
              ∧ ¬ ((future_price / current_price - 1) * 100 < -(0.2 : ℚ)))) := by
  constructor
  · intro h
    simp [calculate_future_price_change, h]
  · intro h
    simp only [calculate_future_price_change, if_neg h]
    refine ⟨trivial, ?_, ?_, ?_⟩ <;> split_ifs with h1 h2 <;> simp_all <;> linarith

/-- Witness for C10: zero current price, and a 50% rise signalling `1`. -/
theorem future_price_change_witness :
    calculate_future_price_change 0 5 = (0, 0)
    ∧ (2 : ℚ) ≠ 0
    ∧ (calculate_future_price_change 2 3).2 = 1 :=
  ⟨(future_price_change_spec 0 5).1 rfl,
   by norm_num,
   ((future_price_change_spec 2 3).2 (by norm_num)).2.1.mpr (by norm_num)⟩

/-- Counterexample to claim C2: on the §8 input (51 one-minute candles,
closes 1..51, volume 100, warm start 0) the engine emits 51 records, not
exactly one. -/
theorem c2_counterexample :
    (calculate_indicators (fun q => q) 50 c2Candles 0).length = 51
    ∧ ¬ (calculate_indicators (fun q => q) 50 c2Candles 0).length = 1 := by
  have h : (calculate_indicators (fun q => q) 50 c2Candles 0).length = 51 := by
    with_unfolding_all decide
  exact ⟨h, by omega⟩

set_option maxRecDepth 16000 in
/-- Claim C2 as amended: on the §8 input the engine emits one record per
candle (51 records, carrying the candle timestamps in order), and the final
record — the one for candle 51 — has `ma_cross = 0`, `rsi_14 = 100.0` and
`volume_anomaly = 0`. -/
theorem c2_amended :
    (calculate_indicators (fun q => q) 50 c2Candles 0).length = 51
    ∧ (calculate_indicators (fun q => q) 50 c2Candles 0).map (fun r => r.time)
        = c2Candles.map (fun c => c.time)
    ∧ (calculate_indicators (fun q => q) 50 c2Candles 0)[50]?.map (fun r => r.ma_cross)
        = some 0
    ∧ (calculate_indicators (fun q => q) 50 c2Candles 0)[50]?.map (fun r => r.rsi_14)
        = some 100
    ∧ (calculate_indicators (fun q => q) 50 c2Candles 0)[50]?.map (fun r => r.volume_anomaly)
        = some 0 := by
  refine ⟨?_, ?_, ?_, ?_, ?_⟩ <;> with_unfolding_all decide

lemma nondecFrom_le_getLast :
    ∀ (l : List DbCandleConverted) (c : DbCandleConverted),
    nondecFrom c.time l = true →
    ∀ x ∈ c :: l, x.time ≤ ((c :: l).getLast (by simp)).time := by
  intro l
  induction l with
  | nil =>
    intro c _ x hx
    simp only [List.mem_singleton] at hx
    subst hx
    rfl
  | cons d t ih =>
    intro c h x hx
    simp only [nondecFrom, Bool.and_eq_true, decide_eq_true_eq] at h
    obtain ⟨hcd, hrest⟩ := h
    have hLast : ((c :: d :: t).getLast (by simp)).time = ((d :: t).getLast (by simp)).time := by
      rw [List.getLast_cons (by simp)]
    rcases List.mem_cons.mp hx with hx | hx
    · subst hx
      rw [hLast]
      exact le_trans hcd (ih d hrest d (List.mem_cons_self d t))
    · rw [hLast]
      exact ih d hrest x hx

lemma driverStep_lpt (f : ℚ → ℚ) (batch_size window_size : ℕ)
    (hist : ℤ → List DbCandleConverted)
    (insertFn : List DbIndicator → Except String ℕ)
    (lpt : ℤ) (processed : ℕ) (page : List DbCandleConverted) (hne : page ≠ []) :
    (driverStep f batch_size window_size hist insertFn lpt processed page).lpt
      = (page.getLast hne).time := by
  simp only [driverStep]
  rw [List.getLast?_eq_getLast page hne]

/-- Claim C4: after every non-empty fetched page (sorted by time ascending),
the driver sets the checkpoint to the maximum raw candle time of the page —
an upper bound of all candle times that is attained — and this is
unconditional: it does not depend on the historical-window source, the
insert function (in particular not on whether the insert succeeded or the
engine emitted zero records), or the previous checkpoint. -/
theorem checkpoint_always_advances (f : ℚ → ℚ) (batch_size window_size : ℕ)
    (hist hist2 : ℤ → List DbCandleConverted)
    (insertFn insertFn2 : List DbIndicator → Except String ℕ)
    (lpt lpt2 : ℤ) (processed processed2 : ℕ)
    (page : List DbCandleConverted)
    (hne : page ≠ [])
    (hsort : nondecTimes page = true) :
    (∀ c ∈ page, c.time ≤ (driverStep f batch_size window_size hist insertFn lpt processed page).lpt)
    ∧ (driverStep f batch_size window_size hist insertFn lpt processed page).lpt
        ∈ page.map (fun c => c.time)
    ∧ (driverStep f batch_size window_size hist insertFn lpt processed page).lpt
        = (driverStep f batch_size window_size hist2 insertFn2 lpt2 processed2 page).lpt := by
  rw [driverStep_lpt f batch_size window_size hist insertFn lpt processed page hne,
    driverStep_lpt f batch_size window_size hist2 insertFn2 lpt2 processed2 page hne]
  refine ⟨?_, ?_, rfl⟩
  · cases page with
    | nil => exact absurd rfl hne
    | cons c rest => exact nondecFrom_le_getLast rest c hsort
  · exact List.mem_map_of_mem (fun c => c.time) (List.getLast_mem hne)

/-- Witness for C4: a concrete 2-candle page; the checkpoint moves to the
last time regardless of two different oracles, previous checkpoints and
counts. -/
theorem checkpoint_always_advances_witness :
    rcCandles.take 2 ≠ []
    ∧ nondecTimes (rcCandles.take 2) = true
    ∧ (∀ c ∈ rcCandles.take 2, c.time ≤
        (driverStep (fun q => q) 1500 50 (fun _ => []) (fun _ => .ok 0) 0 0 (rcCandles.take 2)).lpt)
    ∧ (driverStep (fun q => q) 1500 50 (fun _ => []) (fun _ => .ok 0) 0 0 (rcCandles.take 2)).lpt
        ∈ (rcCandles.take 2).map (fun c => c.time)
    ∧ (driverStep (fun q => q) 1500 50 (fun _ => []) (fun _ => .ok 0) 0 0 (rcCandles.take 2)).lpt
        = (driverStep (fun q => q) 1500 50 (fun _ => [])
            (fun _ => .error "x") 7 3 (rcCandles.take 2)).lpt := by
  have h := checkpoint_always_advances (fun q => q) 1500 50 (fun _ => []) (fun _ => [])
    (fun _ => .ok 0) (fun _ => .error "x") 0 7 0 3 (rcCandles.take 2)
    (by with_unfolding_all decide) (by with_unfolding_all decide)
  exact ⟨by with_unfolding_all decide, by with_unfolding_all decide, h.1, h.2.1, h.2.2⟩

/-- Claim C3 as amended: when a page's insert fails (any error, including
the non-capacity class propagated by `insert_indicators`), the driver merely
logs: the inserted count is unchanged, the checkpoint is nevertheless
advanced to the page's latest candle time, and the cycle continues exactly
as on success (stopping only when the page is short). -/
theorem insert_error_still_advances (f : ℚ → ℚ) (batch_size window_size : ℕ)
    (hist : ℤ → List DbCandleConverted)
    (insertFn : List DbIndicator → Except String ℕ)
    (lpt : ℤ) (processed : ℕ) (page : List DbCandleConverted) (e : String)
    (hne : page ≠ [])
    (herr : insertFn (driverIndicators f window_size hist lpt processed page) = .error e) :
    (driverStep f batch_size window_size hist insertFn lpt processed page).processed = processed
    ∧ (driverStep f batch_size window_size hist insertFn lpt processed page).lpt
        = (page.getLast hne).time
    ∧ (driverStep f batch_size window_size hist insertFn lpt processed page).done
        = decide (page.length < batch_size) := by
  refine ⟨?_, driverStep_lpt f batch_size window_size hist insertFn lpt processed page hne, rfl⟩
  simp only [driverStep, herr, ite_self]

/-- Counterexample to claim C3: a store failing every write with the
non-capacity error `CONNECTION_RESET` makes `insert_indicators` propagate
the error, yet the per-instrument cycle over the 51-candle page finishes
with the checkpoint advanced from 0 to 3060, the latest raw time of the
failed (never committed) page. -/
theorem c3_counterexample :
    isCapacityError "Network error: CONNECTION_RESET" = false
    ∧ c3Insert (calculate_indicators (fun q => q) 50 c2Candles 0)
        = .error "Network error: CONNECTION_RESET"
    ∧ (processLoop (fun q => q) 1500 50 c3Fetch (fun _ => []) c3Insert 2 0 0).1 = 3060
    ∧ (3060 : ℤ) ≠ 0 := by
  refine ⟨?_, ?_, ?_, ?_⟩ <;> with_unfolding_all decide

/-- Witness for the amended C3 theorem: on the 51-candle page with the
always-failing store, the driver keeps `processed = 0` but moves the
checkpoint to the page's last time. -/
theorem insert_error_still_advances_witness :
    c2Candles ≠ []
    ∧ c3Insert (driverIndicators (fun q => q) 50 (fun _ => []) 0 0 c2Candles)
        = .error "Network error: CONNECTION_RESET"
    ∧ (driverStep (fun q => q) 1500 50 (fun _ => []) c3Insert 0 0 c2Candles).processed = 0
    ∧ (driverStep (fun q => q) 1500 50 (fun _ => []) c3Insert 0 0 c2Candles).lpt
        = (c2Candles.getLast (by with_unfolding_all decide)).time := by
  have hne : c2Candles ≠ [] := by with_unfolding_all decide
  have herr : c3Insert (driverIndicators (fun q => q) 50 (fun _ => []) 0 0 c2Candles)
      = .error "Network error: CONNECTION_RESET" := by with_unfolding_all decide
  have h := insert_error_still_advances (fun q => q) 1500 50 (fun _ => []) c3Insert 0 0
    c2Candles "Network error: CONNECTION_RESET" hne herr
  exact ⟨hne, herr, h.1, h.2.1⟩

/-! ### RSI lemmas (C6) -/

lemma calculate_rsi_all_zero_losses (G L : List ℚ) (hG : G.length = 14) (hL : L.length = 14)
    (hsum : L.sum = 0) : calculate_rsi G L = 100 := by
  simp only [calculate_rsi]
  rw [if_neg (by omega), hsum]
  norm_num

lemma mainLoop_rsi_100 (f : ℚ → ℚ) (ws : ℕ) :
    ∀ (rest : List DbCandleConverted) (s : LoopState) (p : ℚ),
    s.buf.prevClose = some p →
    ascFrom p (closesOf rest) = true →
    (∀ x ∈ s.buf.losses, x = 0) →
    s.buf.gains.length = s.buf.losses.length →
    s.buf.gains.length ≤ 14 →
    ∀ k, 13 ≤ s.buf.gains.length + k →
    ∀ r, (mainLoop f ws s rest)[k]? = some r → r.rsi_14 = 100 := by
  intro rest
  induction rest with
  | nil =>
    intro s p _ _ _ _ _ k _ r hr
    simp [mainLoop] at hr
  | cons c rest ih =>
    intro s p hprev hasc hzero hlen hle k hk r hr
    simp only [closesOf, List.map_cons, ascFrom, Bool.and_eq_true, decide_eq_true_eq] at hasc
    obtain ⟨hpd, hasc2⟩ := hasc
    have hd0 : (0 : ℚ) ≤ c.close_price - p := by linarith
    have hbg : (updateBuffers ws s.buf c).gains
        = (if 14 < s.buf.gains.length + 1
            then (s.buf.gains ++ [c.close_price - p]).tail
            else s.buf.gains ++ [c.close_price - p]) := by
      simp only [updateBuffers, hprev, if_pos hd0]
      rw [apply_ite Prod.fst]
      simp
    have hbl : (updateBuffers ws s.buf c).losses
        = (if 14 < s.buf.gains.length + 1
            then (s.buf.losses ++ [(0 : ℚ)]).tail
            else s.buf.losses ++ [(0 : ℚ)]) := by
      simp only [updateBuffers, hprev, if_pos hd0]
      rw [apply_ite Prod.snd]
      simp
    have hbp : (updateBuffers ws s.buf c).prevClose = some c.close_price := rfl
    have hzero2 : ∀ x ∈ (updateBuffers ws s.buf c).losses, x = 0 := by
      rw [hbl]
      intro x hx
      have hx2 : x ∈ s.buf.losses ++ [(0 : ℚ)] := by
        rcases em (14 < s.buf.gains.length + 1) with ht | ht
        · rw [if_pos ht] at hx
          exact List.mem_of_mem_tail hx
        · rw [if_neg ht] at hx
          exact hx
      rcases List.mem_append.mp hx2 with hx3 | hx3
      · exact hzero x hx3
      · simpa using hx3
    have hlen2 : (updateBuffers ws s.buf c).gains.length
        = (updateBuffers ws s.buf c).losses.length := by
      rw [hbg, hbl]
      rcases em (14 < s.buf.gains.length + 1) with ht | ht
      · rw [if_pos ht, if_pos ht]
        simp [hlen]
      · rw [if_neg ht, if_neg ht]
        simp [hlen]
    have hglen : (updateBuffers ws s.buf c).gains.length
        = if 14 < s.buf.gains.length + 1 then s.buf.gains.length else s.buf.gains.length + 1 := by
      rw [hbg]
      rcases em (14 < s.buf.gains.length + 1) with ht | ht
      · rw [if_pos ht, if_pos ht]
        simp
      · rw [if_neg ht, if_neg ht]
        simp
    rw [mainLoop] at hr
    cases k with
    | zero =>
      rw [List.getElem?_cons_zero] at hr
      obtain rfl : _ = r := Option.some.inj hr
      show calculate_rsi (updateBuffers ws s.buf c).gains (updateBuffers ws s.buf c).losses = 100
      have hg14 : (updateBuffers ws s.buf c).gains.length = 14 := by
        rw [hglen]
        rcases em (14 < s.buf.gains.length + 1) with ht | ht
        · rw [if_pos ht]; omega
        · rw [if_neg ht]; omega
      refine calculate_rsi_all_zero_losses _ _ hg14 (by rw [← hlen2]; exact hg14) ?_
      exact List.sum_eq_zero hzero2
    | succ j =>
      rw [List.getElem?_cons_succ] at hr
      refine ih ⟨updateBuffers ws s.buf c, _, _⟩ c.close_price hbp hasc2 hzero2 hlen2 ?_ j ?_ r hr
      · rw [hglen]
        rcases em (14 < s.buf.gains.length + 1) with ht | ht
        · rw [if_pos ht]; omega
        · rw [if_neg ht]; omega
      · rw [hglen]
        rcases em (14 < s.buf.gains.length + 1) with ht | ht
        · rw [if_pos ht]; omega
        · rw [if_neg ht]; omega

/-- Claim C6: at every emitted index `rsi_14` is 50.0 with fewer than 14
buffered deltas; with 14 buffered gains/losses it is 100.0 when the average
loss is exactly 0 and `100 − 100/(1 + avgGain/avgLoss)` otherwise (averages
over the last 14 deltas); and on a strictly increasing price sequence every
record from index 14 on carries `rsi_14 = 100.0`. -/
theorem rsi_spec :
    (∀ gains losses : List ℚ, gains.length < 14 ∨ losses.length < 14 →
        calculate_rsi gains losses = 50)
    ∧ (∀ gains losses : List ℚ, gains.length = 14 → losses.length = 14 →
        calculate_rsi gains losses
          = if losses.sum / 14 = 0 then 100
            else 100 - 100 / (1 + (gains.sum / 14) / (losses.sum / 14)))
    ∧ (∀ (f : ℚ → ℚ) (candles : List DbCandleConverted) (k : ℕ),
        ascB (closesOf candles) = true → 14 ≤ k →
        (calculate_indicators f 50 candles 0)[k]?.map (fun r => r.rsi_14)
          = (calculate_indicators f 50 candles 0)[k]?.map (fun _ => (100 : ℚ))) := by
  refine ⟨?_, ?_, ?_⟩
  · intro gains losses h
    simp only [calculate_rsi]
    rw [if_pos h]
  · intro gains losses hg hl
    simp only [calculate_rsi]
    rw [if_neg (by omega)]
  · intro f candles k hasc hk
    rcases le_or_lt candles.length 50 with hN | hN
    · rw [calculate_indicators_of_le f 50 candles 0 hN]
      simp
    · rw [calculate_indicators_of_lt f 50 candles 0 (by omega)]
      simp only [List.take_zero, List.foldl_nil, List.drop_zero]
      cases candles with
      | nil => simp at hN
      | cons c0 rest =>
        simp only [closesOf, List.map_cons, ascB] at hasc
        obtain ⟨j, rfl⟩ : ∃ j, k = j + 1 := ⟨k - 1, by omega⟩
        rw [mainLoop, List.getElem?_cons_succ]
        cases hj : (mainLoop f 50
            ⟨updateBuffers 50 initBuf c0,
              calculate_sma (updateBuffers 50 initBuf c0).prices 10,
              calculate_sma (updateBuffers 50 initBuf c0).prices 30⟩ rest)[j]? with
        | none => simp
        | some r =>
          have hrsi : r.rsi_14 = 100 := by
            refine mainLoop_rsi_100 f 50 rest _ c0.close_price rfl ?_ ?_ rfl ?_ j ?_ r hj
            · exact hasc
            · intro x hx
              simp only [updateBuffers, initBuf] at hx
              simp at hx
            · simp [updateBuffers, initBuf]
            · simp only [updateBuffers, initBuf]
              simp
              omega
          simp [hrsi]

/-- Witness for C6: on the strictly increasing §8 input, the record at
index 20 has RSI 100. -/
theorem rsi_spec_witness :
    ascB (closesOf c2Candles) = true
    ∧ 14 ≤ 20
    ∧ (calculate_indicators (fun q => q) 50 c2Candles 0)[20]?.map (fun r => r.rsi_14)
        = (calculate_indicators (fun q => q) 50 c2Candles 0)[20]?.map (fun _ => (100 : ℚ)) := by
  have h1 : ascB (closesOf c2Candles) = true := by with_unfolding_all decide
  exact ⟨h1, by norm_num, rsi_spec.2.2 (fun q => q) c2Candles 20 h1 (by norm_num)⟩

/-! ### Crossover-flag lemmas (C7) -/

lemma mainLoop_head_ma_cross (f : ℚ → ℚ) (ws : ℕ) (s : LoopState)
    (rest : List DbCandleConverted) :
    ∀ r, (mainLoop f ws s rest)[0]? = some r →
      r.ma_cross = determine_ma_cross s.prevMa10 s.prevMa30 r.ma_10 r.ma_30 := by
  cases rest with
  | nil =>
    intro r hr
    simp [mainLoop] at hr
  | cons c rest =>
    intro r hr
    rw [mainLoop, List.getElem?_cons_zero] at hr
    obtain rfl : _ = r := Option.some.inj hr
    rfl

lemma mainLoop_cons_shape (f : ℚ → ℚ) (ws : ℕ) (s : LoopState) (c : DbCandleConverted)
    (rest : List DbCandleConverted) :
    ∃ r, mainLoop f ws s (c :: rest)
        = r :: mainLoop f ws ⟨updateBuffers ws s.buf c, r.ma_10, r.ma_30⟩ rest
      ∧ r.ma_cross = determine_ma_cross s.prevMa10 s.prevMa30 r.ma_10 r.ma_30
      ∧ r.volume_anomaly = (if 2 < r.volume_norm then 1 else 0) :=
  ⟨_, rfl, rfl, rfl⟩

lemma mainLoop_consecutive_ma_cross (f : ℚ → ℚ) (ws : ℕ) :
    ∀ (rest : List DbCandleConverted) (s : LoopState) (k : ℕ) (r r2 : DbIndicator),
    (mainLoop f ws s rest)[k]? = some r →
    (mainLoop f ws s rest)[k + 1]? = some r2 →
    r2.ma_cross = determine_ma_cross r.ma_10 r.ma_30 r2.ma_10 r2.ma_30 := by
  intro rest
  induction rest with
  | nil =>
    intro s k r r2 hr _
    simp [mainLoop] at hr
  | cons c rest ih =>
    intro s k r r2 hr hr2
    obtain ⟨r0, hshape, -, -⟩ := mainLoop_cons_shape f ws s c rest
    rw [hshape] at hr hr2
    cases k with
    | zero =>
      rw [List.getElem?_cons_zero] at hr
      rw [List.getElem?_cons_succ] at hr2
      obtain rfl : r0 = r := Option.some.inj hr
      have h := mainLoop_head_ma_cross f ws
        ⟨updateBuffers ws s.buf c, r0.ma_10, r0.ma_30⟩ rest r2 hr2
      simpa using h
    | succ j =>
      rw [List.getElem?_cons_succ] at hr hr2
      exact ih _ j r r2 hr hr2

/-- Claim C7: the crossover flag is `+1` iff the previous (MA10, MA30) pair
had fast ≤ slow and the current has fast > slow, `−1` iff the previous had
fast ≥ slow and the current fast < slow, and `0` otherwise; at the first
emitted index the previous pair is the one computed from the warm-up-seeded
price window; and at every later index the flag is computed from the
previous record's pair, so `+1` occurs exactly at the transition indices. -/
theorem ma_cross_spec :
    (∀ pf ps cf cs : ℚ,
      (determine_ma_cross pf ps cf cs = 1 ↔ pf ≤ ps ∧ cs < cf)
      ∧ (determine_ma_cross pf ps cf cs = -1 ↔ ps ≤ pf ∧ cf < cs)
      ∧ (determine_ma_cross pf ps cf cs = 0
          ↔ ¬ (pf ≤ ps ∧ cs < cf) ∧ ¬ (ps ≤ pf ∧ cf < cs)))
    ∧ (∀ (f : ℚ → ℚ) (ws : ℕ) (candles : List DbCandleConverted) (wei : ℕ),
        match (calculate_indicators f ws candles wei)[0]? with
        | some r => r.ma_cross = determine_ma_cross
            (calculate_sma ((candles.take wei).foldl (updateBuffers ws) initBuf).prices 10)
            (calculate_sma ((candles.take wei).foldl (updateBuffers ws) initBuf).prices 30)
            r.ma_10 r.ma_30
        | none => True)
    ∧ (∀ (f : ℚ → ℚ) (ws : ℕ) (candles : List DbCandleConverted) (wei k : ℕ),
        match (calculate_indicators f ws candles wei)[k]?,
              (calculate_indicators f ws candles wei)[k + 1]? with
        | some r, some r2 =>
            r2.ma_cross = determine_ma_cross r.ma_10 r.ma_30 r2.ma_10 r2.ma_30
            ∧ (r2.ma_cross = 1 ↔ r.ma_10 ≤ r.ma_30 ∧ r2.ma_30 < r2.ma_10)
        | _, _ => True) := by
  have hdmc : ∀ pf ps cf cs : ℚ,
      (determine_ma_cross pf ps cf cs = 1 ↔ pf ≤ ps ∧ cs < cf)
      ∧ (determine_ma_cross pf ps cf cs = -1 ↔ ps ≤ pf ∧ cf < cs)
      ∧ (determine_ma_cross pf ps cf cs = 0
          ↔ ¬ (pf ≤ ps ∧ cs < cf) ∧ ¬ (ps ≤ pf ∧ cf < cs)) := by
    intro pf ps cf cs
    unfold determine_ma_cross
    by_cases h1 : pf ≤ ps ∧ cs < cf
    · rw [if_pos h1]
      refine ⟨by simp [h1], ?_, ?_⟩
      · constructor
        · intro hh
          exact absurd hh (by decide)
        · intro hh
          exact absurd hh.2 (by linarith [h1.2])
      · constructor
        · intro hh
          exact absurd hh (by decide)
        · intro hh
          exact absurd h1 hh.1
    · rw [if_neg h1]
      by_cases h2 : ps ≤ pf ∧ cf < cs
      · rw [if_pos h2]
        refine ⟨?_, by simp [h2], ?_⟩
        · constructor
          · intro hh
            exact absurd hh (by decide)
          · intro hh
            exact absurd hh h1
        · constructor
          · intro hh
            exact absurd hh (by decide)
          · intro hh
            exact absurd h2 hh.2
      · rw [if_neg h2]
        refine ⟨?_, ?_, by simp [h1, h2]⟩
        · constructor
          · intro hh
            exact absurd hh (by decide)
          · intro hh
            exact absurd hh h1
        · constructor
          · intro hh
            exact absurd hh (by decide)
          · intro hh
            exact absurd hh h2
  refine ⟨hdmc, ?_, ?_⟩
  · intro f ws candles wei
    rcases le_or_lt candles.length ws with hN | hN
    · rw [calculate_indicators_of_le f ws candles wei hN]
      simp
    · rw [calculate_indicators_of_lt f ws candles wei (by omega)]
      cases hr : (mainLoop f ws
          ⟨(candles.take wei).foldl (updateBuffers ws) initBuf,
            calculate_sma ((candles.take wei).foldl (updateBuffers ws) initBuf).prices 10,
            calculate_sma ((candles.take wei).foldl (updateBuffers ws) initBuf).prices 30⟩
          (candles.drop wei))[0]? with
      | none => trivial
      | some r => exact mainLoop_head_ma_cross f ws _ _ r hr
  · intro f ws candles wei k
    cases hr : (calculate_indicators f ws candles wei)[k]? with
    | none => trivial
    | some r =>
      cases hr2 : (calculate_indicators f ws candles wei)[k + 1]? with
      | none => trivial
      | some r2 =>
        rcases le_or_lt candles.length ws with hN | hN
        · rw [calculate_indicators_of_le f ws candles wei hN] at hr
          simp at hr
        · rw [calculate_indicators_of_lt f ws candles wei (by omega)] at hr hr2
          have heq := mainLoop_consecutive_ma_cross f ws (candles.drop wei) _ k r r2 hr hr2
          refine ⟨heq, ?_⟩
          rw [heq]
          exact (hdmc r.ma_10 r.ma_30 r2.ma_10 r2.ma_30).1

/-! ### Volume z-score lemmas (C8) -/

lemma vsOf_eq_canonVS (vols : List ℚ) : vsOf vols = canonVS vols := by
  unfold vsOf
  induction vols using List.reverseRecOn with
  | nil => rfl
  | append_singleton l a ih => rw [List.foldl_concat, ih, canonVS_add]

lemma sum_map_sq_dev (m : ℚ) (w : List ℚ) :
    (w.map (fun x => (x - m) * (x - m))).sum
      = (w.map (fun v => v * v)).sum - 2 * m * w.sum + (w.length : ℚ) * (m * m) := by
  induction w with
  | nil => simp
  | cons x t ih =>
    simp only [List.map_cons, List.sum_cons, List.length_cons, ih]
    push_cast
    ring

lemma specVar_eq_codeVar (w : List ℚ) (hn : (w.length : ℚ) ≠ 0) :
    specSampleVariance w
      = ((w.map (fun v => v * v)).sum - w.sum * w.sum / (w.length : ℚ))
          / ((w.length : ℚ) - 1) := by
  unfold specSampleVariance
  rw [sum_map_sq_dev]
  unfold specWindowMean
  congr 1
  field_simp
  ring

lemma vsOf_stddev_small (f : ℚ → ℚ) (vols : List ℚ) (h2 : (lastN 50 vols).length < 2) :
    (vsOf vols).stddev f = 0 := by
  rw [vsOf_eq_canonVS]
  simp only [VolumeStatistics.stddev, canonVS]
  rw [if_pos (by omega)]

lemma vsOf_stddev (f : ℚ → ℚ) (vols : List ℚ) (h2 : 2 ≤ (lastN 50 vols).length) :
    (vsOf vols).stddev f
      = if specSampleVariance (lastN 50 vols) ≤ 0 then 0
        else f (specSampleVariance (lastN 50 vols)) := by
  have hn : ((lastN 50 vols).length : ℚ) ≠ 0 := by
    rw [Nat.cast_ne_zero]
    omega
  rw [vsOf_eq_canonVS]
  simp only [VolumeStatistics.stddev, canonVS]
  rw [if_neg (by omega), ← specVar_eq_codeVar _ hn]

lemma vsOf_mean (vols : List ℚ) (h2 : 2 ≤ (lastN 50 vols).length) :
    (vsOf vols).mean = specWindowMean (lastN 50 vols) := by
  have hne : lastN 50 vols ≠ [] := by
    intro h
    rw [h] at h2
    simp at h2
  rw [vsOf_eq_canonVS]
  simp only [VolumeStatistics.mean, canonVS]
  rw [if_neg hne]
  rfl

lemma mainLoop_anomaly_field (f : ℚ → ℚ) (ws : ℕ) :
    ∀ (rest : List DbCandleConverted) (s : LoopState) (k : ℕ),
    (mainLoop f ws s rest)[k]?.map (fun r => r.volume_anomaly)
      = (mainLoop f ws s rest)[k]?.map (fun r => if 2 < r.volume_norm then (1 : ℤ) else 0) := by
  intro rest
  induction rest with
  | nil => intro s k; rfl
  | cons c rest ih =>
    intro s k
    obtain ⟨r0, hshape, -, hanom⟩ := mainLoop_cons_shape f ws s c rest
    rw [hshape]
    cases k with
    | zero =>
      rw [List.getElem?_cons_zero]
      show some r0.volume_anomaly = some (if 2 < r0.volume_norm then (1 : ℤ) else 0)
      rw [hanom]
    | succ j =>
      rw [List.getElem?_cons_succ]
      exact ih _ j

/-- Claim C8: at every emitted index the anomaly flag is 1 exactly when
`volume_norm` strictly exceeds 2.0 (so 0 at exactly 2.0); and the z-score
itself is 0.0 with fewer than 2 buffered volumes or non-positive sample
variance, and otherwise `(volume − windowMean)/windowStdDev` over the last
50 volumes, where the standard deviation is the square root of the
Bessel-corrected sample variance. -/
theorem volume_zscore_spec :
    (∀ (f : ℚ → ℚ) (vols : List ℚ) (v : ℚ),
        (lastN 50 vols).length < 2 ∨ specSampleVariance (lastN 50 vols) ≤ 0 →
        (vsOf vols).normalize f v = 0)
    ∧ (∀ (f : ℚ → ℚ) (vols : List ℚ) (v : ℚ),
        2 ≤ (lastN 50 vols).length →
        0 < specSampleVariance (lastN 50 vols) →
        f (specSampleVariance (lastN 50 vols)) * f (specSampleVariance (lastN 50 vols))
          = specSampleVariance (lastN 50 vols) →
        0 < f (specSampleVariance (lastN 50 vols)) →
        (vsOf vols).normalize f v
          = (v - specWindowMean (lastN 50 vols)) / f (specSampleVariance (lastN 50 vols)))
    ∧ (∀ (f : ℚ → ℚ) (ws : ℕ) (candles : List DbCandleConverted) (wei k : ℕ),
        (calculate_indicators f ws candles wei)[k]?.map (fun r => r.volume_anomaly)
          = (calculate_indicators f ws candles wei)[k]?.map
              (fun r => if 2 < r.volume_norm then (1 : ℤ) else 0)) := by
  refine ⟨?_, ?_, ?_⟩
  · intro f vols v h
    have hstd : (vsOf vols).stddev f = 0 := by
      rcases h with h | h
      · exact vsOf_stddev_small f vols h
      · rcases lt_or_ge (lastN 50 vols).length 2 with h2 | h2
        · exact vsOf_stddev_small f vols h2
        · rw [vsOf_stddev f vols h2, if_pos h]
    simp only [VolumeStatistics.normalize]
    rw [hstd, if_pos rfl]
  · intro f vols v h2 hvar hsq hpos
    have hstd : (vsOf vols).stddev f = f (specSampleVariance (lastN 50 vols)) := by
      rw [vsOf_stddev f vols h2, if_neg (by linarith)]
    simp only [VolumeStatistics.normalize]
    rw [hstd, if_neg (by linarith), vsOf_mean vols h2]
  · intro f ws candles wei k
    rcases le_or_lt candles.length ws with hN | hN
    · rw [calculate_indicators_of_le f ws candles wei hN]
      rfl
    · rw [calculate_indicators_of_lt f ws candles wei (by omega)]
      exact mainLoop_anomaly_field f ws _ _ k

/-- Witness for C8: constant volumes give z-score 0; the window `[1,2,3]`
has sample variance exactly 1 (its own square root), mean 2, and volume 5
normalizes to `(5 − 2)/1`. -/
theorem volume_zscore_spec_witness :
    ((lastN 50 [(7 : ℚ), 7, 7]).length < 2 ∨ specSampleVariance (lastN 50 [(7 : ℚ), 7, 7]) ≤ 0)
    ∧ (vsOf [(7 : ℚ), 7, 7]).normalize (fun q => q) 9 = 0
    ∧ 2 ≤ (lastN 50 [(1 : ℚ), 2, 3]).length
    ∧ 0 < specSampleVariance (lastN 50 [(1 : ℚ), 2, 3])
    ∧ (fun (q : ℚ) => q) (specSampleVariance (lastN 50 [(1 : ℚ), 2, 3]))
        * (fun (q : ℚ) => q) (specSampleVariance (lastN 50 [(1 : ℚ), 2, 3]))
        = specSampleVariance (lastN 50 [(1 : ℚ), 2, 3])
    ∧ 0 < (fun (q : ℚ) => q) (specSampleVariance (lastN 50 [(1 : ℚ), 2, 3]))
    ∧ (vsOf [(1 : ℚ), 2, 3]).normalize (fun q => q) 5
        = (5 - specWindowMean (lastN 50 [(1 : ℚ), 2, 3]))
            / (fun (q : ℚ) => q) (specSampleVariance (lastN 50 [(1 : ℚ), 2, 3])) := by
  have h1 : (lastN 50 [(7 : ℚ), 7, 7]).length < 2 ∨ specSampleVariance (lastN 50 [(7 : ℚ), 7, 7]) ≤ 0 := by
    right
    with_unfolding_all decide
  have h2 : 2 ≤ (lastN 50 [(1 : ℚ), 2, 3]).length := by with_unfolding_all decide
  have h3 : 0 < specSampleVariance (lastN 50 [(1 : ℚ), 2, 3]) := by with_unfolding_all decide
  have h4 : (fun (q : ℚ) => q) (specSampleVariance (lastN 50 [(1 : ℚ), 2, 3]))
      * (fun (q : ℚ) => q) (specSampleVariance (lastN 50 [(1 : ℚ), 2, 3]))
      = specSampleVariance (lastN 50 [(1 : ℚ), 2, 3]) := by with_unfolding_all decide
  have h5 : 0 < (fun (q : ℚ) => q) (specSampleVariance (lastN 50 [(1 : ℚ), 2, 3])) := h3
  exact ⟨h1, volume_zscore_spec.1 (fun q => q) [(7 : ℚ), 7, 7] 9 h1, h2, h3, h4, h5,
    volume_zscore_spec.2.1 (fun q => q) [(1 : ℚ), 2, 3] 5 h2 h3 h4 h5⟩

/-! ### Sink lemmas (C9) -/

lemma chunkAux_flatten (k : ℕ) :
    ∀ (l acc : List α), (chunkAux k acc l).flatten = acc.reverse ++ l := by
  intro l
  induction l with
  | nil =>
    intro acc
    simp only [chunkAux]
    cases hacc : acc.isEmpty
    · rw [if_neg (by simp [hacc])]
      simp
    · rw [if_pos rfl]
      have : acc = [] := List.isEmpty_iff.mp hacc
      simp [this]
  | cons x xs ih =>
    intro acc
    simp only [chunkAux]
    by_cases hflush : acc.length + 1 = k
    · rw [if_pos hflush]
      simp only [List.flatten_cons, ih]
      simp
    · rw [if_neg hflush]
      rw [ih (x :: acc)]
      simp

lemma chunkAux_sizes (k : ℕ) :
    ∀ (l acc : List α), acc.length < k →
    ∀ c ∈ chunkAux k acc l, c ≠ [] ∧ c.length ≤ k := by
  intro l
  induction l with
  | nil =>
    intro acc hlt c hc
    simp only [chunkAux] at hc
    cases hacc : acc.isEmpty
    · rw [if_neg (by simp [hacc])] at hc
      simp only [List.mem_singleton] at hc
      subst hc
      refine ⟨by simp [List.isEmpty_iff] at hacc; simpa using hacc, by simpa using Nat.le_of_lt hlt⟩
    · rw [if_pos hacc] at hc
      simp at hc
  | cons x xs ih =>
    intro acc hlt c hc
    simp only [chunkAux] at hc
    by_cases hflush : acc.length + 1 = k
    · rw [if_pos hflush] at hc
      rcases List.mem_cons.mp hc with hc | hc
      · subst hc
        constructor
        · simp
        · simp
          omega
      · exact ih [] (by simp; omega) c hc
    · rw [if_neg hflush] at hc
      exact ih (x :: acc) (by simp; omega) c hc

lemma insertGo_ok (batchExec : List DbIndicator → Except String Unit)
    (rowExec : DbIndicator → Except String Unit) :
    ∀ (chunks : List (List DbIndicator)) (acc : ℕ),
    (∀ c ∈ chunks, okOrCapB batchExec c = true) →
    insertGo batchExec rowExec chunks acc
      = .ok (acc + (chunks.map (chunkContribution batchExec rowExec)).sum) := by
  intro chunks
  induction chunks with
  | nil => intro acc _; simp [insertGo]
  | cons b rest ih =>
    intro acc h
    have hb := h b (List.mem_cons_self b rest)
    have hrest : ∀ c ∈ rest, okOrCapB batchExec c = true :=
      fun c hc => h c (List.mem_cons_of_mem b hc)
    cases hbe : batchExec b with
    | ok u =>
      simp only [insertGo, hbe]
      rw [ih _ hrest]
      simp [chunkContribution, hbe, Nat.add_assoc]
    | error e =>
      have hcap : isCapacityError e = true := by
        unfold okOrCapB at hb
        rw [hbe] at hb
        exact hb
      simp only [insertGo, hbe]
      rw [if_pos hcap, ih _ hrest]
      simp [chunkContribution, hbe, Nat.add_assoc]

lemma insertGo_err (batchExec : List DbIndicator → Except String Unit)
    (rowExec : DbIndicator → Except String Unit)
    (bad : List DbIndicator) (post : List (List DbIndicator)) (e : String)
    (hbad : batchExec bad = .error e) (hother : isCapacityError e = false) :
    ∀ (pre : List (List DbIndicator)) (acc : ℕ),
    (∀ c ∈ pre, okOrCapB batchExec c = true) →
    insertGo batchExec rowExec (pre ++ bad :: post) acc = .error e := by
  intro pre
  induction pre with
  | nil =>
    intro acc _
    simp only [List.nil_append, insertGo, hbad]
    rw [if_neg (by simp [hother])]
  | cons b rest ih =>
    intro acc h
    have hb := h b (List.mem_cons_self b rest)
    have hrest : ∀ c ∈ rest, okOrCapB batchExec c = true :=
      fun c hc => h c (List.mem_cons_of_mem b hc)
    cases hbe : batchExec b with
    | ok u =>
      simp only [List.cons_append, insertGo, hbe]
      exact ih _ hrest
    | error e2 =>
      have hcap : isCapacityError e2 = true := by
        unfold okOrCapB at hb
        rw [hbe] at hb
        exact hb
      simp only [List.cons_append, insertGo, hbe]
      rw [if_pos hcap]
      exact ih _ hrest

/-- Claim C9: `insert_indicators` splits its input into sub-batches of at
most 50 rows covering the input; when every sub-batch either succeeds or
fails inside the capacity-exhaustion class it returns `ok` with the count
where a capacity-failed sub-batch contributes only its rows whose single-row
retry succeeds (dropped rows are excluded); when a sub-batch fails with any
other error and all earlier sub-batches were ok-or-capacity, it returns that
error; and when every sub-batch write succeeds it returns the full row
count. -/
theorem insert_indicators_spec :
    (∀ l : List DbIndicator,
      (chunksOf 50 l).flatten = l ∧ ∀ c ∈ chunksOf 50 l, c ≠ [] ∧ c.length ≤ 50)
    ∧ (∀ (batchExec : List DbIndicator → Except String Unit)
        (rowExec : DbIndicator → Except String Unit) (l : List DbIndicator),
        (∀ c ∈ chunksOf 50 l, okOrCapB batchExec c = true) →
        insert_indicators batchExec rowExec l
          = .ok (((chunksOf 50 l).map (chunkContribution batchExec rowExec)).sum))
    ∧ (∀ (batchExec : List DbIndicator → Except String Unit)
        (rowExec : DbIndicator → Except String Unit) (l : List DbIndicator)
        (pre : List (List DbIndicator)) (bad : List DbIndicator)
        (post : List (List DbIndicator)) (e : String),
        chunksOf 50 l = pre ++ bad :: post →
        (∀ c ∈ pre, okOrCapB batchExec c = true) →
        batchExec bad = .error e →
        isCapacityError e = false →
        insert_indicators batchExec rowExec l = .error e)
    ∧ (∀ (batchExec : List DbIndicator → Except String Unit)
        (rowExec : DbIndicator → Except String Unit) (l : List DbIndicator),
        (∀ c ∈ chunksOf 50 l, batchExec c = .ok ()) →
        insert_indicators batchExec rowExec l = .ok l.length) := by
  have hjoin : ∀ l : List DbIndicator, (chunksOf 50 l).flatten = l := by
    intro l
    unfold chunksOf
    rw [chunkAux_flatten]
    simp
  have hok : ∀ (batchExec : List DbIndicator → Except String Unit)
      (rowExec : DbIndicator → Except String Unit) (l : List DbIndicator),
      (∀ c ∈ chunksOf 50 l, okOrCapB batchExec c = true) →
      insert_indicators batchExec rowExec l
        = .ok (((chunksOf 50 l).map (chunkContribution batchExec rowExec)).sum) := by
    intro batchExec rowExec l h
    by_cases hl : l = []
    · subst hl
      simp [insert_indicators, chunksOf, chunkAux]
    · unfold insert_indicators
      rw [if_neg hl, insertGo_ok batchExec rowExec _ 0 h]
      simp
  refine ⟨?_, hok, ?_, ?_⟩
  · intro l
    exact ⟨hjoin l, chunkAux_sizes 50 l [] (by simp)⟩
  · intro batchExec rowExec l pre bad post e hchunks hpre hbad hother
    have hl : l ≠ [] := by
      intro h
      subst h
      simp [chunksOf, chunkAux] at hchunks
    unfold insert_indicators
    rw [if_neg hl, hchunks]
    exact insertGo_err batchExec rowExec bad post e hbad hother pre 0 hpre
  · intro batchExec rowExec l h
    rw [hok batchExec rowExec l (by
      intro c hc
      unfold okOrCapB
      rw [h c hc])]
    congr 1
    have hmap : (chunksOf 50 l).map (chunkContribution batchExec rowExec)
        = (chunksOf 50 l).map List.length := by
      refine List.map_congr_left ?_
      intro c hc
      unfold chunkContribution
      rw [h c hc]
    rw [hmap, ← List.length_flatten, hjoin]

/-- Witness for C9: a 60-row insert where every multi-row write hits
`TOO_MANY_PARTS` and only even-time rows survive the row-by-row retry; a
3-row insert against a connection-reset store propagates the error; and a
fully successful insert returns 60. -/
theorem insert_indicators_spec_witness :
    (chunksOf 50 c9Rows).all (okOrCapB capFailBatch) = true
    ∧ insert_indicators capFailBatch evenRowExec c9Rows
        = .ok (((chunksOf 50 c9Rows).map (chunkContribution capFailBatch evenRowExec)).sum)
    ∧ chunksOf 50 (c9Rows.take 3) = [] ++ (c9Rows.take 3) :: []
    ∧ otherErrBatch (c9Rows.take 3) = .error "Network error: CONNECTION_RESET"
    ∧ isCapacityError "Network error: CONNECTION_RESET" = false
    ∧ insert_indicators otherErrBatch evenRowExec (c9Rows.take 3)
        = .error "Network error: CONNECTION_RESET"
    ∧ insert_indicators (fun _ => .ok ()) evenRowExec c9Rows = .ok c9Rows.length := by
  have hcap : ∀ c ∈ chunksOf 50 c9Rows, okOrCapB capFailBatch c = true := by
    with_unfolding_all decide
  have hchunks : chunksOf 50 (c9Rows.take 3) = [] ++ (c9Rows.take 3) :: [] := by
    with_unfolding_all decide
  have hother : isCapacityError "Network error: CONNECTION_RESET" = false := by
    with_unfolding_all decide
  refine ⟨by with_unfolding_all decide,
    insert_indicators_spec.2.1 capFailBatch evenRowExec c9Rows hcap,
    hchunks, rfl, hother,
    insert_indicators_spec.2.2.1 otherErrBatch evenRowExec (c9Rows.take 3) [] (c9Rows.take 3)
      [] "Network error: CONNECTION_RESET" hchunks
      (fun c hc => absurd hc (List.not_mem_nil c)) rfl hother,
    insert_indicators_spec.2.2.2 (fun _ => .ok ()) evenRowExec c9Rows (fun c _ => rfl)⟩
